import Mathlib

/-!
Verification of the ludoj-scraper typed-record engine and request-chain
controller against its specification.

The development shallowly embeds the relevant Python sources:
  * `ludoj/items.py` — the typed item engine (`TypedItem.__setitem__`,
    `TypedItem.parse`, `TypedItem.clean`, the field processors and the
    `GameItem` field registry, `_serialize_bool`);
  * `ludoj_scraper/spiders/bga.py` — the sequential request chain
    (`BgaSpider._next_request_or_item` and the stage callbacks);
  * `ludoj/spiders/luding.py` — the player-count cell handling in
    `LudingSpider.parse_game`.

Python values are modelled by the inductive `PyVal`; machine floats are
modelled as rationals (the values that flow through the claims are exact
small decimals); `datetime` values are modelled as integer timestamps.
Helper functions from `ludoj/utils.py` and the loaders from
`ludoj/loaders.py` are not part of the provided sources; they are modelled
from the specification and are marked `Modelled from the spec:` in their
doc comments.
-/

set_option autoImplicit false

namespace Ludoj

/-- The Python runtime types that occur in the field registry
(`dtype=` arguments in `ludoj/items.py`). -/
inductive PyType where
  | noneType
  | bool
  | int
  | float
  | str
  | list
  | datetime
  deriving DecidableEq, Repr

/-- Python values, restricted to the shapes the item engine handles.
Floats are modelled as rationals, `datetime` values as integer timestamps. -/
inductive PyVal where
  | none
  | bool (b : Bool)
  | int (n : Int)
  | float (q : ℚ)
  | str (s : String)
  | list (xs : List PyVal)
  | datetime (d : Int)

/-- Python `isinstance(v, t)`.  Mirrors CPython: `bool` is a subclass of
`int`, so a boolean is an instance of `int` as well. -/
def isinstance (v : PyVal) (t : PyType) : Bool :=
  match v, t with
  | .str _, .str => true
  | .int _, .int => true
  | .bool _, .bool => true
  | .bool _, .int => true
  | .float _, .float => true
  | .list _, .list => true
  | .datetime _, .datetime => true
  | _, _ => false

/-- `isinstance` against a type or tuple of types (Python allows
`isinstance(v, (A, B))`); the registry only ever declares single types. -/
def isinstanceL (v : PyVal) (ts : List PyType) : Bool :=
  ts.any (isinstance v)

/-- Python `type(v)`. -/
def typeOf : PyVal → PyType
  | .none => .noneType
  | .bool _ => .bool
  | .int _ => .int
  | .float _ => .float
  | .str _ => .str
  | .list _ => .list
  | .datetime _ => .datetime

/-- Python truthiness (`bool(v)`). -/
def pyTruthy : PyVal → Bool
  | .none => false
  | .bool b => b
  | .int n => decide (n ≠ 0)
  | .float q => decide (q ≠ 0)
  | .str s => decide (s ≠ "")
  | .list xs => !xs.isEmpty
  | .datetime _ => true

/-- Recogniser for the Python `None` value. -/
def isNone : PyVal → Bool
  | .none => true
  | _ => false

/-- The numeric content of a Python value, if any (`bool` is numeric in
Python: `True == 1`). -/
def pyNum : PyVal → Option ℚ
  | .int n => some (n : ℚ)
  | .float q => some q
  | .bool b => some (if b then 1 else 0)
  | _ => Option.none

/-! ### Decimal rendering and parsing

`str(int)` / `int(str)` / `float(str)` round trips are needed to follow a
numeric candidate through the `MapCompose` input pipelines, which always
convert candidates to `str` before re-parsing them.  We implement decimal
digits explicitly so that the round trip can be proved. -/

/-- The decimal digit character for `d % 10`-sized inputs. -/
def digitChar (d : Nat) : Char :=
  match d with
  | 0 => '0' | 1 => '1' | 2 => '2' | 3 => '3' | 4 => '4'
  | 5 => '5' | 6 => '6' | 7 => '7' | 8 => '8' | _ => '9'

/-- Numeric value of a decimal digit character. -/
def digitVal (c : Char) : Nat := c.toNat - 48

/-- Decimal digits of a natural number, most significant first; the fuel
makes the recursion structural (any fuel above the input works). -/
def natDigitsGo : Nat → Nat → List Char
  | 0, _ => []
  | fuel + 1, n =>
    if n < 10 then [digitChar n]
    else natDigitsGo fuel (n / 10) ++ [digitChar (n % 10)]

/-- Decimal digits of a natural number, most significant first. -/
def natDigits (n : Nat) : List Char := natDigitsGo (n + 1) n

/-- Numeric value of a digit string (no validity check). -/
def digitsVal (cs : List Char) : Nat :=
  cs.foldl (fun acc c => 10 * acc + digitVal c) 0

/-- Decimal rendering of an integer, as `str(int)` produces it. -/
def intDigits (n : Int) : List Char :=
  if n < 0 then '-' :: natDigits n.natAbs else natDigits n.toNat

/-- Parses an all-digit character list to a natural number; empty or
non-digit input yields `Option.none`. -/
def digitsToNat (cs : List Char) : Option Nat :=
  if cs ≠ [] ∧ cs.all Char.isDigit then some (digitsVal cs) else Option.none

/-- Parses an optionally `-`-signed digit string to an integer. -/
def parseIntChars (cs : List Char) : Option Int :=
  match cs with
  | [] => Option.none
  | c :: rest =>
    if c = '-' then (digitsToNat rest).map (fun m => -(Int.ofNat m))
    else (digitsToNat (c :: rest)).map Int.ofNat

/-- Splits a character list at the first character satisfying `p`;
the second component is `Option.none` when no such character occurs. -/
def splitFirst (p : Char → Bool) : List Char → List Char × Option (List Char)
  | [] => ([], Option.none)
  | c :: cs =>
    if p c then ([], some cs)
    else
      let r := splitFirst p cs
      (c :: r.1, r.2)

/-- Parses a decimal string (optional sign, optional fractional part)
to a rational, as `float(str)` would. -/
def parseFloatChars (cs : List Char) : Option ℚ :=
  match splitFirst (fun c => c = '.') cs with
  | (intPart, Option.none) => Option.map (fun m : Int => (m : ℚ)) (parseIntChars intPart)
  | (intPart, some frac) =>
    match parseIntChars intPart, digitsToNat frac with
    | some n, some f =>
      let fq : ℚ := (f : ℚ) / (10 : ℚ) ^ frac.length
      some (if intPart.head? = some '-' then (n : ℚ) - fq else (n : ℚ) + fq)
    | _, _ => Option.none

/-- Splits a character list on every character satisfying `p`
(Python `str.split(sep)` semantics: empty fields are kept). -/
def splitOnChar (p : Char → Bool) : List Char → List (List Char)
  | [] => [[]]
  | c :: cs =>
    if p c then [] :: splitOnChar p cs
    else
      match splitOnChar p cs with
      | [] => [[c]]
      | w :: ws => (c :: w) :: ws

/-- Joins words with single spaces. -/
def joinWords : List (List Char) → List Char
  | [] => []
  | [w] => w
  | w :: ws => w ++ ' ' :: joinWords ws

/-! ### Value normalizers

The pure normalizers live in `ludoj/utils.py`, which is not among the
provided sources, and in the third-party `w3lib.html` module; the ones a
claim depends on are modelled from the specification (§4.2). -/

/-- `ludoj.utils.identity`. Modelled from the spec: the identity normalizer
(the first stage of every `MapCompose` pipeline). -/
def identity (v : PyVal) : PyVal := v

/-- `str(v)`: the decimal rendering for numbers; Python's conventional
renderings otherwise.  Floats with non-integral values and lists are never
rendered by any claim, so their rendering is best effort. -/
def pyRender : PyVal → String
  | .none => "None"
  | .bool b => if b then "True" else "False"
  | .int n => String.mk (intDigits n)
  | .float q =>
    if q.den = 1 then String.mk (intDigits q.num) ++ ".0"
    else String.mk (intDigits q.num) ++ "/" ++ String.mk (intDigits (q.den : Int))
  | .str s => s
  | .list _ => "[...]"
  | .datetime d => String.mk (intDigits d)

/-- The `str` stage of the `MapCompose` pipelines. -/
def py_str (v : PyVal) : PyVal := .str (pyRender v)

/-- Lifts a string transformation to `PyVal`; every pipeline position where
these occur is after the `str` stage, so only strings reach them. -/
def pvStrMap (f : String → String) (v : PyVal) : PyVal :=
  match v with
  | .str s => .str (f s)
  | v => v

/-- Tag-stripping scanner: characters between `<` and `>` are dropped.
`inTag` tracks whether the scanner is inside a tag. -/
def removeTagsChars (inTag : Bool) : List Char → List Char
  | [] => []
  | c :: cs =>
    if inTag then
      if c = '>' then removeTagsChars false cs else removeTagsChars true cs
    else
      if c = '<' then removeTagsChars true cs else c :: removeTagsChars false cs

/-- `w3lib.html.remove_tags` (third-party): strips markup tags; the
identity on markup-free text. -/
def remove_tags : PyVal → PyVal :=
  pvStrMap (fun s => String.mk (removeTagsChars false s.data))

/-- Recognises one of the four standard HTML entity bodies after a `&`. -/
def entityHead (cs : List Char) : Option (Char × List Char) :=
  match cs with
  | 'a' :: 'm' :: 'p' :: ';' :: r => some ('&', r)
  | 'l' :: 't' :: ';' :: r => some ('<', r)
  | 'g' :: 't' :: ';' :: r => some ('>', r)
  | 'q' :: 'u' :: 'o' :: 't' :: ';' :: r => some ('"', r)
  | _ => Option.none

/-- Entity-decoding scanner; the fuel is the input length (each step
consumes at least one character). -/
def replaceEntitiesGo : Nat → List Char → List Char
  | 0, cs => cs
  | _ + 1, [] => []
  | fuel + 1, c :: rest =>
    if c = '&' then
      match entityHead rest with
      | some (d, r) => d :: replaceEntitiesGo fuel r
      | Option.none => c :: replaceEntitiesGo fuel rest
    else c :: replaceEntitiesGo fuel rest

/-- `w3lib.html.replace_entities` (third-party): decodes HTML entities;
the identity on entity-free text.  We model the four standard entities. -/
def replace_entities : PyVal → PyVal :=
  pvStrMap (fun s => String.mk (replaceEntitiesGo s.data.length s.data))

/-- Whitespace collapsing on characters: split on whitespace, drop empty
fields, re-join with single spaces (this trims and collapses runs). -/
def normalizeSpaceChars (cs : List Char) : List Char :=
  joinWords ((splitOnChar Char.isWhitespace cs).filter (fun w => !w.isEmpty))

/-- `ludoj.utils.normalize_space`. Modelled from the spec: collapses runs
of whitespace and trims; deterministic, never fails.  The
`preserve_newline` variant (used only by the description field) is not
modelled. -/
def normalize_space : PyVal → PyVal :=
  pvStrMap (fun s => String.mk (normalizeSpaceChars s.data))

/-- `ludoj.utils.parse_int`. Modelled from the spec: locale-tolerant
(strips `,` thousands separators), fails to "no value" on non-numeric
content; numeric inputs keep their integral value (`int(x)` truncates
toward zero for floats). -/
def parse_int : PyVal → PyVal
  | .str s =>
    match parseIntChars (s.data.filter (fun c => !(c = ','))) with
    | some n => .int n
    | Option.none => .none
  | .int n => .int n
  | .bool b => .int (if b then 1 else 0)
  | .float q => .int (q.num / (q.den : Int))
  | _ => .none

/-- `ludoj.utils.parse_float`. Modelled from the spec: locale-tolerant
(strips `,` thousands separators), fails to "no value" on non-numeric
content. -/
def parse_float : PyVal → PyVal
  | .str s =>
    match parseFloatChars (s.data.filter (fun c => !(c = ','))) with
    | some q => .float q
    | Option.none => .none
  | .int n => .float (n : ℚ)
  | .float q => .float q
  | .bool b => .float (if b then 1 else 0)
  | _ => .none

/-- Lower-cases a string (ASCII). -/
def lowerStr (s : String) : String := String.mk (s.data.map Char.toLower)

/-- `ludoj.utils.parse_bool`. Modelled from the spec: accepts a closed set
of truthy/falsy string tokens ("true"/"yes"/"1" vs "false"/"no"/"0",
case-insensitively); unrecognized tokens fail to "no value"; booleans and
numbers keep their truth value. -/
def parse_bool : PyVal → PyVal
  | .bool b => .bool b
  | .int n => .bool (decide (n ≠ 0))
  | .float q => .bool (decide (q ≠ 0))
  | .str s =>
    let t := lowerStr s
    if t = "true" ∨ t = "yes" ∨ t = "1" then .bool true
    else if t = "false" ∨ t = "no" ∨ t = "0" then .bool false
    else .none
  | _ => .none

/-- `ludoj.utils.validate_range`. Modelled from the spec:
`validate_range(value, lower=None, upper=None)` fails to "no value" when
the numeric value lies outside the inclusive bounds; an absent bound is
not enforced. -/
def validate_range (lower upper : Option ℚ) (v : PyVal) : PyVal :=
  match pyNum v with
  | some q =>
    let lowOk := match lower with
      | some lo => decide (lo ≤ q)
      | Option.none => true
    let highOk := match upper with
      | some hi => decide (q ≤ hi)
      | Option.none => true
    if lowOk && highOk then v else .none
  | Option.none => .none

/-- Order-preserving deduplication, keeping first occurrences; the fuel
makes the recursion structural (the input length suffices). -/
def dedupGo : Nat → List String → List String
  | 0, xs => xs
  | _ + 1, [] => []
  | fuel + 1, x :: xs => x :: dedupGo fuel (xs.filter (fun y => decide (y ≠ x)))

/-- Order-preserving deduplication of a string list. -/
def dedupStr (xs : List String) : List String := dedupGo xs.length xs

/-- `ludoj.utils.clear_list` on string candidates. Modelled from the
spec: "all raw candidates ... deduplicated (preserving first-seen order)";
falsy (empty) values are dropped. -/
def clear_list (xs : List String) : List String :=
  dedupStr (xs.filter (fun s => decide (s ≠ "")))

/-- Content between double quotes, for the JSON model below. -/
def unquoteChars (cs : List Char) : Option (List Char) :=
  match cs with
  | '"' :: rest =>
    match rest.reverse with
    | '"' :: mid => some mid.reverse
    | _ => Option.none
  | _ => Option.none

/-- `ludoj.utils.parse_json`. Modelled from the spec: decodes a
JSON-encoded array, failing to "no value" on malformed or non-array input.
We model arrays of double-quoted strings without escapes or embedded
commas — the shape the repository round-trips through `serialize_json`. -/
def parse_json : PyVal → PyVal
  | .str s =>
    let cs := normalizeSpaceChars s.data
    match cs with
    | '[' :: rest =>
      match rest.reverse with
      | ']' :: midRev =>
        let mid := midRev.reverse
        if mid.isEmpty then .list []
        else
          let parts := (splitOnChar (fun c => c = ',') mid).map
            (fun w => unquoteChars (normalizeSpaceChars w))
          if parts.all Option.isSome then
            .list (parts.map (fun p => .str (String.mk (p.getD []))))
          else .none
      | _ => .none
    | _ => .none
  | .list xs => .list xs
  | _ => .none

/-- Renders a `PyVal` as a JSON token for `serialize_json`. -/
def jsonRender : PyVal → String
  | .str s => "\"" ++ s ++ "\""
  | v => pyRender v

/-- `ludoj.utils.serialize_json`. Modelled from the spec: list fields are
serialized as JSON arrays. -/
def serialize_json : PyVal → PyVal
  | .list xs =>
    .str ("[" ++ String.intercalate "," (xs.map jsonRender) ++ "]")
  | v => .str (jsonRender v)

/-- `ludoj.utils.parse_date`. Modelled from the spec: accepts known
date/time shapes and yields a UTC timestamp, failing to "no value"
otherwise; timestamps are modelled as integers and date strings as
integer literals. -/
def parse_date : PyVal → PyVal
  | .datetime d => .datetime d
  | .str s =>
    match parseIntChars s.data with
    | some n => .datetime n
    | Option.none => .none
  | _ => .none

/-- `ludoj.utils.serialize_date`. Modelled from the spec: dates are
serialized as ISO-8601 strings; with integer timestamps, the decimal
rendering. -/
def serialize_date : PyVal → PyVal
  | .datetime d => .str (String.mk (intDigits d))
  | _ => .none

/-- `ludoj.items._serialize_bool` (from `ludoj/items.py`):
`int(item) if isinstance(item, bool) else None`. -/
def serialize_bool (item : PyVal) : PyVal :=
  match item with
  | .bool b => .int (if b then 1 else 0)
  | _ => .none

/-! ### `MapCompose` pipelines

`scrapy.loader.processors.MapCompose` applies its functions left to right
to each value; a `None` result drops the value and short-circuits the
remaining stages for it (`arg_to_iter(None) == []`).  None of the
pipeline functions used here returns a list, so the flattening step is
the identity. -/

/-- `MapCompose(fs)(values)`. -/
def mapCompose : List (PyVal → PyVal) → List PyVal → List PyVal
  | [], vs => vs
  | f :: fs, vs => mapCompose fs ((vs.map f).filter (fun v => !isNone v))

/-- The trailing `lambda v: v or None` of `POS_FLOAT_PROCESSOR` and of the
`year` field's input processor. -/
def truthyOrNone (v : PyVal) : PyVal :=
  if pyTruthy v then v else .none

/-- The common leading stages of every numeric input pipeline in
`ludoj/items.py`. -/
def textStages : List (PyVal → PyVal) :=
  [identity, py_str, remove_tags, replace_entities, replace_entities, normalize_space]

/-- `POS_INT_PROCESSOR` (`ludoj/items.py`): text normalization, then
`parse_int`, then `validate_range(lower=1)`. -/
def POS_INT_PROCESSOR (values : List PyVal) : List PyVal :=
  mapCompose (textStages ++ [parse_int, validate_range (some 1) Option.none]) values

/-- `NN_INT_PROCESSOR` (`ludoj/items.py`): text normalization, then
`parse_int`, then `validate_range(lower=0)`. -/
def NN_INT_PROCESSOR (values : List PyVal) : List PyVal :=
  mapCompose (textStages ++ [parse_int, validate_range (some 0) Option.none]) values

/-- `POS_FLOAT_PROCESSOR` (`ludoj/items.py`): text normalization, then
`parse_float`, then `validate_range(lower=0)`, then `lambda v: v or None`. -/
def POS_FLOAT_PROCESSOR (values : List PyVal) : List PyVal :=
  mapCompose (textStages ++ [parse_float, validate_range (some 0) Option.none, truthyOrNone]) values

/-- `NN_FLOAT_PROCESSOR` (`ludoj/items.py`): text normalization, then
`parse_float`, then `validate_range(lower=0)`. -/
def NN_FLOAT_PROCESSOR (values : List PyVal) : List PyVal :=
  mapCompose (textStages ++ [parse_float, validate_range (some 0) Option.none]) values

/-- The `year` field's input processor (`ludoj/items.py`): text
normalization, `parse_int`, `validate_range(lower=-4000,
upper=date.today().year + 10)`, then `lambda year: year or None`.  The
upper bound depends on the run date, so it is a parameter. -/
def year_input_processor (todayYear : Int) (values : List PyVal) : List PyVal :=
  mapCompose
    (textStages ++
      [parse_int, validate_range (some (-4000)) (some ((todayYear : ℚ) + 10)), truthyOrNone])
    values

/-! ### The typed item engine (`ludoj/items.py`, class `TypedItem`)

Items are Python dicts: insertion-ordered association lists with unique
keys.  Assigning an existing key updates it in place; a new key is
appended. -/

/-- An item's stored field values. -/
abbrev Dict := List (String × PyVal)

/-- `d.get(k)` on an item's values. -/
def lookupD : Dict → String → Option PyVal
  | [], _ => Option.none
  | p :: ps, k => if p.1 = k then some p.2 else lookupD ps k

/-- `d[k] = v` on a Python dict: in-place update of an existing key,
append of a new one. -/
def dictSet : Dict → String → PyVal → Dict
  | [], k, v => [(k, v)]
  | p :: ps, k, v => if p.1 = k then (k, v) :: ps else p :: dictSet ps k v

/-- One field declaration (`scrapy.Field(...)` keyword arguments read by
the engine).  No field in the repository declares a custom `setter`, so
`field.get('setter', IDENTITY)` is the identity throughout and is embedded
as such.  Loader-only keys (`input_processor`, `output_processor`,
`default`) are modelled as standalone definitions where a claim needs
them. -/
structure FieldSpec where
  dtype : Option (List PyType) := Option.none
  dtype_convert : Option (PyVal → PyVal) := Option.none
  required : Bool := false
  parser : PyVal → PyVal := identity
  serializer : Option (PyVal → PyVal) := Option.none

/-- `cls.fields.get(key)` over the field registry. -/
def lookupReg : List (String × FieldSpec) → String → Option FieldSpec
  | [], _ => Option.none
  | p :: ps, k => if p.1 = k then some p.2 else lookupReg ps k

/-- The errors `TypedItem.__setitem__` can raise: scrapy's `KeyError` for
an undeclared field, the `ValueError` of line 55 (naming the field, the
declared dtype and the actual type), and the `AssertionError` of line 61
when the converted value still mismatches. -/
inductive SetErr where
  | keyError (field : String)
  | valueError (field : String) (expected : List PyType) (actual : PyType)
  | assertError

/-- `TypedItem.__setitem__` (`ludoj/items.py` lines 42–63).  The stored
value is `setter(value)`; with no custom setters in the repository this is
`value` itself.  If the stored value is `None`, the field declares no
`dtype`, or the value is an instance of the dtype, the assignment stands.
Otherwise a declared `dtype_convert` is applied and the check re-run
(every declared converter in the repository is callable, so the
`dtype[0] if isinstance(dtype, tuple) else dtype` fallback of line 58 is
dead code and not modelled); without a converter a `ValueError` is
raised. -/
def setitem (reg : List (String × FieldSpec)) (d : Dict) (key : String) (value : PyVal) :
    Except SetErr Dict :=
  match lookupReg reg key with
  | Option.none => .error (SetErr.keyError key)
  | some field =>
    let d1 := dictSet d key value
    match field.dtype with
    | Option.none => .ok d1
    | some dt =>
      if isNone value || isinstanceL value dt then .ok d1
      else
        match field.dtype_convert with
        | Option.none => .error (SetErr.valueError key dt (typeOf value))
        | some convert =>
          let v2 := convert value
          if isinstanceL v2 dt || isNone v2 then .ok (dictSet d1 key v2)
          else .error SetErr.assertError

/-- The skip test of `TypedItem.parse` line 74:
`value is None or value == ''`. -/
def isNoneOrEmptyStr : PyVal → Bool
  | .none => true
  | .str s => decide (s = "")
  | _ => false

/-- The loop body of `TypedItem.parse` (`ludoj/items.py` lines 65–87):
iterate the declared fields; skip a field whose raw value is missing,
`None` or the empty string; otherwise assign it, and on a `ValueError`
fall back to the field's declared parser and assign that result instead
(other exceptions propagate — the `except` clause catches `ValueError`
only). -/
def parseGo (reg : List (String × FieldSpec)) (item : Dict) :
    List (String × FieldSpec) → Dict → Except SetErr Dict
  | [], article => .ok article
  | (key, props) :: rest, article =>
    match lookupD item key with
    | Option.none => parseGo reg item rest article
    | some v =>
      if isNoneOrEmptyStr v then parseGo reg item rest article
      else
        match setitem reg article key v with
        | .ok a => parseGo reg item rest a
        | .error (SetErr.valueError _ _ _) =>
          (setitem reg article key (props.parser v)).bind (fun a => parseGo reg item rest a)
        | .error e => .error e

/-- `TypedItem.parse`: parse the fields of a dict-like item into a typed
item, starting from an empty article. -/
def parse (reg : List (String × FieldSpec)) (item : Dict) : Except SetErr Dict :=
  parseGo reg item reg []

/-- Constructing `cls(mapping)`: scrapy's `Item.__init__` assigns every
entry through `__setitem__` in mapping order. -/
def constructFrom (reg : List (String × FieldSpec)) :
    List (String × PyVal) → Dict → Except SetErr Dict
  | [], d => .ok d
  | (k, v) :: rest, d => (setitem reg d k v).bind (constructFrom reg rest)

/-- `TypedItem.clean` (`ludoj/items.py` lines 89–93):
`cls({k: v for k, v in item.items() if v and k in cls.fields})` — filter
the mapping down to declared, truthy fields and construct an item from
it. -/
def clean (reg : List (String × FieldSpec)) (item : Dict) : Except SetErr Dict :=
  constructFrom reg
    (item.filter (fun p => pyTruthy p.2 && (lookupReg reg p.1).isSome)) []

/-! ### The `GameItem` field registry (`ludoj/items.py` lines 116–301) -/

/-- A plain string field. -/
def strField : FieldSpec := { dtype := some [PyType.str] }

/-- A JSON-list field: `dtype=list, output_processor=clear_list,
serializer=serialize_json, parser=parse_json`. -/
def listJsonField : FieldSpec :=
  { dtype := some [PyType.list], parser := parse_json, serializer := some serialize_json }

/-- An integer field with `dtype_convert=parse_int`. -/
def intField : FieldSpec :=
  { dtype := some [PyType.int], dtype_convert := some parse_int }

/-- A float field with `dtype_convert=parse_float`. -/
def floatField : FieldSpec :=
  { dtype := some [PyType.float], dtype_convert := some parse_float }

/-- A boolean field: `dtype=bool, default=None, input_processor=IDENTITY,
serializer=_serialize_bool, parser=parse_bool` (no `dtype_convert`). -/
def boolField : FieldSpec :=
  { dtype := some [PyType.bool], parser := parse_bool, serializer := some serialize_bool }

/-- A datetime field: `dtype=datetime, serializer=serialize_date,
parser=parse_date`. -/
def datetimeField : FieldSpec :=
  { dtype := some [PyType.datetime], parser := parse_date, serializer := some serialize_date }

/-- The `year` field: `dtype=int, dtype_convert=parse_int` (its input
processor is `year_input_processor`). -/
def yearSpec : FieldSpec := intField

/-- The `GameItem` field registry, in declaration order. -/
def gameFields : List (String × FieldSpec) :=
  [ ("name", { dtype := some [PyType.str], required := true }),
    ("alt_name", listJsonField),
    ("year", yearSpec),
    ("game_type", strField),
    ("description", strField),
    ("designer", listJsonField),
    ("artist", listJsonField),
    ("publisher", listJsonField),
    ("url", strField),
    ("image_url", listJsonField),
    ("video_url", listJsonField),
    ("external_link", listJsonField),
    ("list_price", strField),
    ("min_players", intField),
    ("max_players", intField),
    ("min_players_rec", intField),
    ("max_players_rec", intField),
    ("min_players_best", intField),
    ("max_players_best", intField),
    ("min_age", intField),
    ("max_age", intField),
    ("min_age_rec", floatField),
    ("max_age_rec", floatField),
    ("min_time", intField),
    ("max_time", intField),
    ("category", listJsonField),
    ("mechanic", listJsonField),
    ("cooperative", boolField),
    ("compilation", boolField),
    ("family", listJsonField),
    ("expansion", listJsonField),
    ("implementation", listJsonField),
    ("rank", intField),
    ("num_votes", intField),
    ("avg_rating", floatField),
    ("stddev_rating", floatField),
    ("bayes_rating", floatField),
    ("worst_rating", intField),
    ("best_rating", intField),
    ("complexity", floatField),
    ("easiest_complexity", intField),
    ("hardest_complexity", intField),
    ("language_dependency", floatField),
    ("lowest_language_dependency", intField),
    ("highest_language_dependency", intField),
    ("bgg_id", intField),
    ("freebase_id", strField),
    ("wikidata_id", strField),
    ("wikipedia_id", strField),
    ("dbpedia_id", strField),
    ("luding_id", intField),
    ("published_at", datetimeField),
    ("updated_at", datetimeField),
    ("scraped_at", { dtype := some [PyType.datetime], required := true,
                     parser := parse_date, serializer := some serialize_date }) ]

/-! ### The sequential request chain (`ludoj_scraper/spiders/bga.py`)

One logical game is enriched by an ordered queue of pending requests
(images, videos, reviews).  `BgaSpider._next_request_or_item` either
emits the item (empty queue) or pops the head `(url, callback)` pair and
issues a request whose callback and errback are the stage callback bound
with the current item, carrying the item and the remaining queue in the
request meta. -/

/-- The stage callbacks that `BgaSpider._game_requests` can queue. -/
inductive Stage where
  | images
  | videos
  | reviews

/-- A JSON object, restricted to the string-valued keys the chain
callbacks query. -/
abbrev JObj := List (String × String)

/-- A parsed JSON API response document: top-level keys mapping to arrays
of objects (the only shape the stage callbacks query, via JMESPath
expressions of the form `key[].subkey`). -/
abbrev JDoc := List (String × List JObj)

/-- Key lookup in a `JObj`. -/
def lookupO : JObj → String → Option String
  | [], _ => Option.none
  | p :: ps, k => if p.1 = k then some p.2 else lookupO ps k

/-- Top-level key lookup in a `JDoc`. -/
def lookupJ : JDoc → String → Option (List JObj)
  | [], _ => Option.none
  | p :: ps, k => if p.1 = k then some p.2 else lookupJ ps k

/-- The JMESPath query `key[].subkey` over a document. -/
def jmesFlat (doc : JDoc) (key sub : String) : List String :=
  ((lookupJ doc key).getD []).filterMap (fun o => lookupO o sub)

/-- A delivered response: either a successful response whose body parsed
to a document, or an error delivery (a failed request handed to the
errback, which has no parseable body). -/
inductive Response where
  | ok (doc : JDoc)
  | err

/-- `_json_from_response` (`ludoj_scraper/spiders/bga.py` lines 19–21):
`parse_json(response.text) if hasattr(response, 'text') else None`, with
a falsy result replaced by `{}`.  An error delivery has no parseable
text, so it yields the empty document. -/
def json_from_response : Response → JDoc
  | .ok doc => doc
  | .err => []

/-- The chain-relevant fields of the evolving game item.  An absent field
is the empty list (the loader leaves a field unset when it collected no
candidate for it). -/
structure ChainItem where
  image_url : List String
  video_url : List String
  review_url : List String

/-- The result of `_next_request_or_item`: either the finished item, or a
request to `url` whose callback is `stage` bound with the current item
(`partial(callback, item=item)`, also used as the errback) and whose meta
carries the item and the remaining queue. -/
inductive NextResult where
  | item (it : ChainItem)
  | request (url : String) (stage : Stage) (bound : ChainItem) (meta : List (String × Stage))

/-- `BgaSpider._next_request_or_item` (`ludoj_scraper/spiders/bga.py`
lines 117–128): an empty queue returns the item itself; otherwise the head
`(url, callback)` pair is popped (`requests.pop(0)`) and a request to
`url` is returned with the callback bound to the current item and the
remaining queue in the meta. -/
def next_request_or_item (it : ChainItem) (requests : List (String × Stage)) : NextResult :=
  match requests with
  | [] => .item it
  | (url, callback) :: rest => .request url callback it rest

/-- One stage callback (`parse_images` / `parse_videos` / `parse_reviews`,
`ludoj_scraper/spiders/bga.py` lines 202–259): re-seed the loader with the
item's existing values for the stage's field, add the candidates the
stage's JMESPath queries extract from the response document, and load the
item.  The loaders (`ludoj/loaders.py`) are not among the provided
sources; their reduction for list fields is modelled from the spec:
candidates are flattened and deduplicated preserving first-seen order
(`clear_list` as output processor). -/
def applyStage (s : Stage) (resp : Response) (it : ChainItem) : ChainItem :=
  let doc := json_from_response resp
  match s with
  | .images =>
    { it with image_url :=
        clear_list (it.image_url ++ jmesFlat doc "images" "url" ++ jmesFlat doc "images" "thumb") }
  | .videos =>
    { it with video_url := clear_list (it.video_url ++ jmesFlat doc "videos" "url") }
  | .reviews =>
    { it with review_url := clear_list (it.review_url ++ jmesFlat doc "reviews" "url") }

/-- The body of every stage callback after extraction: advance the chain
with the updated item and the queue recovered from the request meta. -/
def stageCallback (s : Stage) (resp : Response) (bound : ChainItem)
    (meta : List (String × Stage)) : NextResult :=
  next_request_or_item (applyStage s resp bound) meta

/-- Runs a chain to completion against a world that answers each url with
a response (successful or failed; a failed request is delivered to the
errback, which `_next_request_or_item` sets to the same bound callback). -/
def runChain (world : String → Response) : ChainItem → List (String × Stage) → ChainItem
  | it, [] => it
  | it, (url, s) :: rest => runChain world (applyStage s (world url) it) rest

/-- The urls requested while running a chain, in request order. -/
def chainTrace (world : String → Response) : ChainItem → List (String × Stage) → List String
  | _, [] => []
  | it, (url, s) :: rest => url :: chainTrace world (applyStage s (world url) it) rest

/-! ### Luding player-count parsing (`ludoj/spiders/luding.py` lines 69–72)

```
players = game.xpath('tr[td = "No. of players:"]/td[2]/text()').extract_first()
players = players.split('-') if players else [None]
ldr.add_value('min_players', players[0])
ldr.add_value('max_players', players[-1])
```
-/

/-- The `players` list of `LudingSpider.parse_game`: the cell text split
on `-` when the extracted text is truthy (present and non-empty),
`[None]` otherwise. -/
def playersList (cell : Option String) : List (Option String) :=
  match cell with
  | some s =>
    if s = "" then [Option.none]
    else (splitOnChar (fun c => c = '-') s.data).map (fun w => some (String.mk w))
  | Option.none => [Option.none]

/-- `players[0]`, the value fed to `min_players`.  `playersList` is never
empty, so the default never fires. -/
def minPlayersFed (cell : Option String) : Option String :=
  (playersList cell).headD Option.none

/-- `players[-1]`, the value fed to `max_players`. -/
def maxPlayersFed (cell : Option String) : Option String :=
  (playersList cell).getLastD Option.none

/-- `ItemLoader.add_value` on the collected candidates of one field:
adding `None` adds nothing (`arg_to_iter(None) == []`), so a field whose
only added value is `None` stays without candidates and is left unset by
`load_item`. -/
def addValue (cands : List String) (v : Option String) : List String :=
  match v with
  | Option.none => cands
  | some s => cands ++ [s]

/-! ### Lemmas: decimal digits and the `str`/parse round trip -/

theorem digitVal_digitChar {d : Nat} (h : d < 10) : digitVal (digitChar d) = d := by
  interval_cases d <;> decide

theorem isDigit_digitChar (d : Nat) : (digitChar d).isDigit = true := by
  rcases d with _ | _ | _ | _ | _ | _ | _ | _ | _ | d <;> rfl

theorem isDigit_ne {c x : Char} (hc : c.isDigit = true) (hx : x.isDigit = false) : c ≠ x := by
  intro he
  rw [he, hx] at hc
  exact Bool.noConfusion hc

theorem isDigit_not_ws {c : Char} (hc : c.isDigit = true) : c.isWhitespace = false := by
  by_contra hws
  have hws' : c.isWhitespace = true := by
    cases h : c.isWhitespace
    · exact absurd h hws
    · rfl
  simp only [Char.isWhitespace, Bool.or_eq_true, decide_eq_true_eq] at hws'
  rcases hws' with ((h | h) | h) | h <;> rw [h] at hc <;> exact Bool.noConfusion hc

theorem digitsVal_append (ds : List Char) (c : Char) :
    digitsVal (ds ++ [c]) = 10 * digitsVal ds + digitVal c := by
  simp [digitsVal, List.foldl_append]

theorem natDigitsGo_spec :
    ∀ (fuel n : Nat), n < fuel →
      digitsVal (natDigitsGo fuel n) = n ∧ natDigitsGo fuel n ≠ [] ∧
        ∀ c ∈ natDigitsGo fuel n, c.isDigit = true := by
  intro fuel
  induction fuel with
  | zero => intro n h; omega
  | succ fuel ih =>
    intro n h
    by_cases h10 : n < 10
    · refine ⟨?_, ?_, ?_⟩ <;>
        simp [natDigitsGo, h10, digitsVal, digitVal_digitChar h10, isDigit_digitChar]
    · have hdiv : n / 10 < fuel := by
        have h1 : n / 10 < n := Nat.div_lt_self (by omega) (by omega)
        omega
      obtain ⟨hval, hne, hdig⟩ := ih (n / 10) hdiv
      refine ⟨?_, ?_, ?_⟩
      · rw [natDigitsGo, if_neg h10, digitsVal_append, hval,
          digitVal_digitChar (Nat.mod_lt n (by omega))]
        omega
      · rw [natDigitsGo, if_neg h10]
        intro hcontra
        exact List.cons_ne_nil _ _ (List.append_eq_nil.mp hcontra).2
      · rw [natDigitsGo, if_neg h10]
        intro c hc
        rcases List.mem_append.mp hc with h1 | h1
        · exact hdig c h1
        · rcases List.mem_singleton.mp h1 with rfl
          exact isDigit_digitChar _

theorem natDigits_val (n : Nat) : digitsVal (natDigits n) = n :=
  (natDigitsGo_spec (n + 1) n (by omega)).1

theorem natDigits_ne_nil (n : Nat) : natDigits n ≠ [] :=
  (natDigitsGo_spec (n + 1) n (by omega)).2.1

theorem natDigits_digits (n : Nat) : ∀ c ∈ natDigits n, c.isDigit = true :=
  (natDigitsGo_spec (n + 1) n (by omega)).2.2

theorem digitsToNat_natDigits (n : Nat) : digitsToNat (natDigits n) = some n := by
  rw [digitsToNat, if_pos, natDigits_val]
  exact ⟨natDigits_ne_nil n, List.all_eq_true.mpr (natDigits_digits n)⟩

theorem intDigits_chars (n : Int) : ∀ c ∈ intDigits n, c = '-' ∨ c.isDigit = true := by
  intro c hc
  rw [intDigits] at hc
  split at hc
  · rcases List.mem_cons.mp hc with rfl | h
    · exact Or.inl rfl
    · exact Or.inr (natDigits_digits _ c h)
  · exact Or.inr (natDigits_digits _ c hc)

theorem intDigits_ne_nil (n : Int) : intDigits n ≠ [] := by
  rw [intDigits]
  split
  · exact List.cons_ne_nil _ _
  · exact natDigits_ne_nil _

theorem parseIntChars_intDigits (n : Int) : parseIntChars (intDigits n) = some n := by
  by_cases hn : n < 0
  · rw [intDigits, if_pos hn, parseIntChars, if_pos rfl, digitsToNat_natDigits]
    simp only [Option.map_some']
    congr 1
    show -(n.natAbs : Int) = n
    omega
  · rw [intDigits, if_neg hn]
    rcases hd : natDigits n.toNat with _ | ⟨c, cs⟩
    · exact absurd hd (natDigits_ne_nil _)
    · have hdig : c.isDigit = true := natDigits_digits n.toNat c (by rw [hd]; exact List.mem_cons_self _ _)
      have hne : c ≠ '-' := isDigit_ne hdig (by decide)
      rw [parseIntChars, if_neg hne, ← hd, digitsToNat_natDigits]
      simp only [Option.map_some']
      congr 1
      show (n.toNat : Int) = n
      omega

/-! ### Lemmas: the text normalizers are the identity on plain digit strings -/

theorem removeTagsChars_id {cs : List Char} (h : ∀ c ∈ cs, c ≠ '<') :
    removeTagsChars false cs = cs := by
  induction cs with
  | nil => rfl
  | cons c cs ih =>
    rw [removeTagsChars]
    simp only [Bool.false_eq_true, if_false, if_neg (h c (List.mem_cons_self _ _))]
    rw [ih (fun c hc => h c (List.mem_cons_of_mem _ hc))]

theorem replaceEntitiesGo_id (fuel : Nat) :
    ∀ {cs : List Char}, (∀ c ∈ cs, c ≠ '&') → replaceEntitiesGo fuel cs = cs := by
  induction fuel with
  | zero => intro cs _; rfl
  | succ fuel ih =>
    intro cs h
    match cs with
    | [] => rfl
    | c :: rest =>
      rw [replaceEntitiesGo, if_neg (h c (List.mem_cons_self _ _)),
        ih (fun c hc => h c (List.mem_cons_of_mem _ hc))]

theorem splitOnChar_id {p : Char → Bool} : ∀ {cs : List Char},
    (∀ c ∈ cs, p c = false) → splitOnChar p cs = [cs] := by
  intro cs
  induction cs with
  | nil => intro _; rfl
  | cons c cs ih =>
    intro h
    rw [splitOnChar, if_neg (by rw [h c (List.mem_cons_self _ _)]; exact Bool.false_ne_true),
      ih (fun c hc => h c (List.mem_cons_of_mem _ hc))]

theorem splitFirst_id {p : Char → Bool} : ∀ {cs : List Char},
    (∀ c ∈ cs, p c = false) → splitFirst p cs = (cs, Option.none) := by
  intro cs
  induction cs with
  | nil => intro _; rfl
  | cons c cs ih =>
    intro h
    have hpc : p c = false := h c (List.mem_cons_self _ _)
    have hih := ih (fun c hc => h c (List.mem_cons_of_mem _ hc))
    rw [splitFirst]
    simp [hpc, hih]

theorem normalizeSpaceChars_id {cs : List Char}
    (h : ∀ c ∈ cs, c.isWhitespace = false) : normalizeSpaceChars cs = cs := by
  rw [normalizeSpaceChars, splitOnChar_id h]
  match cs with
  | [] => rfl
  | c :: cs => rfl

theorem filter_comma_id {cs : List Char} (h : ∀ c ∈ cs, c ≠ ',') :
    cs.filter (fun c => !(c = ',')) = cs := by
  apply List.filter_eq_self.mpr
  intro c hc
  simp [h c hc]

/-! ### Lemmas: `MapCompose` on a single candidate -/

theorem mapCompose_nil_values (fs : List (PyVal → PyVal)) : mapCompose fs [] = [] := by
  induction fs with
  | nil => rfl
  | cons f fs ih => rw [mapCompose]; simpa using ih

theorem mapCompose_step_ok (f : PyVal → PyVal) (fs : List (PyVal → PyVal)) (x y : PyVal)
    (hfx : f x = y) (hy : isNone y = false) :
    mapCompose (f :: fs) [x] = mapCompose fs [y] := by
  rw [mapCompose]
  congr 1
  simp [hfx, hy, List.filter]

theorem mapCompose_step_none (f : PyVal → PyVal) (fs : List (PyVal → PyVal)) (x : PyVal)
    (hfx : isNone (f x) = true) : mapCompose (f :: fs) [x] = [] := by
  rw [mapCompose]
  have : ([x].map f).filter (fun v => !isNone v) = [] := by
    simp [List.filter, hfx]
  rw [this, mapCompose_nil_values]

/-- The six text-normalization stages shared by all numeric pipelines send
an integer candidate to its decimal string. -/
theorem textStages_int (v : Int) (rest : List (PyVal → PyVal)) :
    mapCompose (textStages ++ rest) [PyVal.int v] =
      mapCompose rest [PyVal.str (String.mk (intDigits v))] := by
  have hchars := intDigits_chars v
  have hno : ∀ (x : Char), x.isDigit = false → x ≠ '-' → ∀ c ∈ intDigits v, c ≠ x := by
    intro x hx hdx c hc
    rcases hchars c hc with rfl | hd
    · exact fun he => hdx he.symm
    · exact isDigit_ne hd hx
  have hws : ∀ c ∈ intDigits v, c.isWhitespace = false := by
    intro c hc
    rcases hchars c hc with rfl | hd
    · decide
    · exact isDigit_not_ws hd
  show mapCompose
    (identity :: py_str :: remove_tags :: replace_entities :: replace_entities ::
      normalize_space :: rest) [PyVal.int v] = _
  rw [mapCompose_step_ok identity _ (PyVal.int v) (PyVal.int v) rfl rfl]
  rw [mapCompose_step_ok py_str _ (PyVal.int v) (PyVal.str (String.mk (intDigits v))) rfl rfl]
  rw [mapCompose_step_ok remove_tags _ (PyVal.str (String.mk (intDigits v)))
    (PyVal.str (String.mk (intDigits v)))
    (by
      show PyVal.str (String.mk (removeTagsChars false (intDigits v))) = _
      rw [removeTagsChars_id (hno '<' (by decide) (by decide))]) rfl]
  rw [mapCompose_step_ok replace_entities _ (PyVal.str (String.mk (intDigits v)))
    (PyVal.str (String.mk (intDigits v)))
    (by
      show PyVal.str (String.mk (replaceEntitiesGo (intDigits v).length (intDigits v))) = _
      rw [replaceEntitiesGo_id _ (hno '&' (by decide) (by decide))]) rfl]
  rw [mapCompose_step_ok replace_entities _ (PyVal.str (String.mk (intDigits v)))
    (PyVal.str (String.mk (intDigits v)))
    (by
      show PyVal.str (String.mk (replaceEntitiesGo (intDigits v).length (intDigits v))) = _
      rw [replaceEntitiesGo_id _ (hno '&' (by decide) (by decide))]) rfl]
  rw [mapCompose_step_ok normalize_space _ (PyVal.str (String.mk (intDigits v)))
    (PyVal.str (String.mk (intDigits v)))
    (by
      show PyVal.str (String.mk (normalizeSpaceChars (intDigits v))) = _
      rw [normalizeSpaceChars_id hws]) rfl]

/-- `parse_int` recovers an integer from its decimal string. -/
theorem parse_int_roundtrip (v : Int) :
    parse_int (PyVal.str (String.mk (intDigits v))) = PyVal.int v := by
  have hno : ∀ c ∈ intDigits v, c ≠ ',' := by
    intro c hc
    rcases intDigits_chars v c hc with rfl | hd
    · decide
    · exact isDigit_ne hd (by decide)
  show (match parseIntChars ((intDigits v).filter (fun c => !(c = ','))) with
    | some n => PyVal.int n
    | Option.none => PyVal.none) = PyVal.int v
  rw [filter_comma_id hno, parseIntChars_intDigits]

/-- `parseFloatChars` recovers an integer from its decimal digits. -/
theorem parseFloatChars_intDigits (v : Int) :
    parseFloatChars (intDigits v) = some ((v : Int) : ℚ) := by
  have hnodot : ∀ c ∈ intDigits v, (fun c => decide (c = '.')) c = false := by
    intro c hc
    simp only [decide_eq_false_iff_not]
    rcases intDigits_chars v c hc with rfl | hd
    · decide
    · exact isDigit_ne hd (by decide : ('.' : Char).isDigit = false)
  rw [parseFloatChars, splitFirst_id hnodot]
  show Option.map (fun m : Int => (m : ℚ)) (parseIntChars (intDigits v)) = _
  rw [parseIntChars_intDigits]
  rfl

/-- `parse_float` recovers an integral rational from its decimal string. -/
theorem parse_float_roundtrip (v : Int) :
    parse_float (PyVal.str (String.mk (intDigits v))) = PyVal.float (v : ℚ) := by
  have hno : ∀ c ∈ intDigits v, c ≠ ',' := by
    intro c hc
    rcases intDigits_chars v c hc with rfl | hd
    · decide
    · exact isDigit_ne hd (by decide : (',' : Char).isDigit = false)
  show (match parseFloatChars ((intDigits v).filter (fun c => !(c = ','))) with
    | some q => PyVal.float q
    | Option.none => PyVal.none) = PyVal.float (v : ℚ)
  rw [filter_comma_id hno, parseFloatChars_intDigits]

/-! ### Lemmas: range validation and truthiness on numeric values -/

theorem validate_range_lower_int (lo : ℚ) (v : Int) :
    validate_range (some lo) Option.none (PyVal.int v) =
      if lo ≤ (v : ℚ) then PyVal.int v else PyVal.none := by
  by_cases h : lo ≤ (v : ℚ) <;> simp [validate_range, pyNum, h]

theorem validate_range_both_int (lo hi : ℚ) (v : Int) :
    validate_range (some lo) (some hi) (PyVal.int v) =
      if lo ≤ (v : ℚ) ∧ (v : ℚ) ≤ hi then PyVal.int v else PyVal.none := by
  by_cases h1 : lo ≤ (v : ℚ) <;> by_cases h2 : (v : ℚ) ≤ hi <;>
    simp [validate_range, pyNum, h1, h2]

theorem validate_range_lower_float (lo q : ℚ) :
    validate_range (some lo) Option.none (PyVal.float q) =
      if lo ≤ q then PyVal.float q else PyVal.none := by
  by_cases h : lo ≤ q <;> simp [validate_range, pyNum, h]

theorem truthyOrNone_int (v : Int) :
    truthyOrNone (PyVal.int v) = if v = 0 then PyVal.none else PyVal.int v := by
  by_cases h : v = 0 <;> simp [truthyOrNone, pyTruthy, h]

theorem truthyOrNone_float (q : ℚ) :
    truthyOrNone (PyVal.float q) = if q = 0 then PyVal.none else PyVal.float q := by
  by_cases h : q = 0 <;> simp [truthyOrNone, pyTruthy, h]

/-! ### Lemmas: the numeric input processors on an integer candidate -/

theorem POS_INT_PROCESSOR_int (v : Int) :
    POS_INT_PROCESSOR [PyVal.int v] = if 1 ≤ v then [PyVal.int v] else [] := by
  rw [POS_INT_PROCESSOR, textStages_int]
  rw [mapCompose_step_ok parse_int _ (PyVal.str (String.mk (intDigits v))) (PyVal.int v)
    (parse_int_roundtrip v) rfl]
  by_cases h : 1 ≤ v
  · rw [if_pos h,
      mapCompose_step_ok (validate_range (some 1) Option.none) _ (PyVal.int v) (PyVal.int v)
        (by rw [validate_range_lower_int, if_pos (by exact_mod_cast h)]) rfl]
    rfl
  · rw [if_neg h]
    apply mapCompose_step_none
    rw [validate_range_lower_int, if_neg (by exact_mod_cast h)]
    rfl

theorem NN_INT_PROCESSOR_int (v : Int) :
    NN_INT_PROCESSOR [PyVal.int v] = if 0 ≤ v then [PyVal.int v] else [] := by
  rw [NN_INT_PROCESSOR, textStages_int]
  rw [mapCompose_step_ok parse_int _ (PyVal.str (String.mk (intDigits v))) (PyVal.int v)
    (parse_int_roundtrip v) rfl]
  by_cases h : 0 ≤ v
  · rw [if_pos h,
      mapCompose_step_ok (validate_range (some 0) Option.none) _ (PyVal.int v) (PyVal.int v)
        (by rw [validate_range_lower_int, if_pos (by exact_mod_cast h)]) rfl]
    rfl
  · rw [if_neg h]
    apply mapCompose_step_none
    rw [validate_range_lower_int, if_neg (by exact_mod_cast h)]
    rfl

theorem NN_FLOAT_PROCESSOR_int (v : Int) :
    NN_FLOAT_PROCESSOR [PyVal.int v] = if 0 ≤ v then [PyVal.float (v : ℚ)] else [] := by
  rw [NN_FLOAT_PROCESSOR, textStages_int]
  rw [mapCompose_step_ok parse_float _ (PyVal.str (String.mk (intDigits v)))
    (PyVal.float (v : ℚ)) (parse_float_roundtrip v) rfl]
  by_cases h : 0 ≤ v
  · rw [if_pos h,
      mapCompose_step_ok (validate_range (some 0) Option.none) _ (PyVal.float (v : ℚ))
        (PyVal.float (v : ℚ))
        (by rw [validate_range_lower_float, if_pos (by exact_mod_cast h)]) rfl]
    rfl
  · rw [if_neg h]
    apply mapCompose_step_none
    rw [validate_range_lower_float, if_neg (by exact_mod_cast h)]
    rfl

theorem POS_FLOAT_PROCESSOR_int (v : Int) :
    POS_FLOAT_PROCESSOR [PyVal.int v] = if 0 < v then [PyVal.float (v : ℚ)] else [] := by
  rw [POS_FLOAT_PROCESSOR, textStages_int]
  rw [mapCompose_step_ok parse_float _ (PyVal.str (String.mk (intDigits v)))
    (PyVal.float (v : ℚ)) (parse_float_roundtrip v) rfl]
  by_cases h : 0 ≤ v
  · rw [mapCompose_step_ok (validate_range (some 0) Option.none) _ (PyVal.float (v : ℚ))
      (PyVal.float (v : ℚ))
      (by rw [validate_range_lower_float, if_pos (by exact_mod_cast h)]) rfl]
    by_cases hz : v = 0
    · subst hz
      rw [if_neg (by omega)]
      apply mapCompose_step_none
      rw [truthyOrNone_float, if_pos (by norm_num)]
      rfl
    · rw [if_pos (by omega),
        mapCompose_step_ok truthyOrNone _ (PyVal.float (v : ℚ)) (PyVal.float (v : ℚ))
          (by rw [truthyOrNone_float, if_neg (by exact_mod_cast hz)]) rfl]
      rfl
  · rw [if_neg (by omega)]
    apply mapCompose_step_none
    rw [validate_range_lower_float, if_neg (by exact_mod_cast h)]
    rfl

theorem year_input_processor_int (todayYear v : Int) :
    year_input_processor todayYear [PyVal.int v] =
      if -4000 ≤ v ∧ v ≤ todayYear + 10 ∧ v ≠ 0 then [PyVal.int v] else [] := by
  rw [year_input_processor, textStages_int]
  rw [mapCompose_step_ok parse_int _ (PyVal.str (String.mk (intDigits v))) (PyVal.int v)
    (parse_int_roundtrip v) rfl]
  by_cases hin : -4000 ≤ v ∧ v ≤ todayYear + 10
  · rw [mapCompose_step_ok (validate_range (some (-4000)) (some ((todayYear : ℚ) + 10))) _
      (PyVal.int v) (PyVal.int v)
      (by
        rw [validate_range_both_int]
        rw [if_pos (by constructor <;> [exact_mod_cast hin.1; exact_mod_cast hin.2])]) rfl]
    by_cases hz : v = 0
    · subst hz
      rw [if_neg (by omega)]
      apply mapCompose_step_none
      rw [truthyOrNone_int, if_pos rfl]
      rfl
    · rw [if_pos ⟨hin.1, hin.2, hz⟩,
        mapCompose_step_ok truthyOrNone _ (PyVal.int v) (PyVal.int v)
          (by rw [truthyOrNone_int, if_neg hz]) rfl]
      rfl
  · rw [if_neg (by tauto)]
    apply mapCompose_step_none
    rw [validate_range_both_int, if_neg (by
      intro hcon
      exact hin ⟨by exact_mod_cast hcon.1, by exact_mod_cast hcon.2⟩)]
    rfl

/-! ### Lemmas: dict updates and `TypedItem.__setitem__` -/

theorem isNone_iff {v : PyVal} : isNone v = true ↔ v = PyVal.none := by
  cases v <;> simp [isNone]

theorem lookupD_dictSet_self (d : Dict) (k : String) (v : PyVal) :
    lookupD (dictSet d k v) k = some v := by
  induction d with
  | nil => simp [dictSet, lookupD]
  | cons p ps ih =>
    rw [dictSet]
    by_cases h : p.1 = k
    · rw [if_pos h, lookupD, if_pos rfl]
    · rw [if_neg h, lookupD, if_neg h, ih]

theorem lookupD_dictSet_ne (d : Dict) (k k' : String) (v : PyVal) (hne : k ≠ k') :
    lookupD (dictSet d k v) k' = lookupD d k' := by
  induction d with
  | nil => simp [dictSet, lookupD, hne]
  | cons p ps ih =>
    rw [dictSet]
    by_cases h : p.1 = k
    · rw [if_pos h, lookupD, if_neg hne, lookupD, if_neg (by rw [h]; exact hne)]
    · rw [if_neg h, lookupD, lookupD, ih]

theorem dictSet_dictSet (d : Dict) (k : String) (v w : PyVal) :
    dictSet (dictSet d k v) k w = dictSet d k w := by
  induction d with
  | nil => simp [dictSet]
  | cons p ps ih =>
    rw [dictSet]
    by_cases h : p.1 = k
    · rw [if_pos h, dictSet, if_pos rfl, dictSet, if_pos h]
    · rw [if_neg h, dictSet, if_neg h, dictSet, if_neg h, ih]

theorem dictSet_append {d : Dict} {k : String} (hk : ∀ p ∈ d, p.1 ≠ k) (v : PyVal) :
    dictSet d k v = d ++ [(k, v)] := by
  induction d with
  | nil => rfl
  | cons p ps ih =>
    rw [dictSet, if_neg (hk p (List.mem_cons_self _ _)),
      ih (fun q hq => hk q (List.mem_cons_of_mem _ hq))]
    rfl

/-- The stored values a successful `__setitem__` can leave behind: the
field is declared, and the value is `None`, an instance of the declared
dtype, or unconstrained when no dtype is declared. -/
def okEntry (reg : List (String × FieldSpec)) (k : String) (v : PyVal) : Prop :=
  ∃ spec, lookupReg reg k = some spec ∧
    (spec.dtype = Option.none ∨ v = PyVal.none ∨
      ∃ dt, spec.dtype = some dt ∧ isinstanceL v dt = true)

theorem setitem_ok_shape {reg : List (String × FieldSpec)} {d : Dict} {key : String}
    {value : PyVal} {d' : Dict} (h : setitem reg d key value = .ok d') :
    ∃ v', d' = dictSet d key v' ∧ okEntry reg key v' := by
  rcases hr : lookupReg reg key with _ | spec
  · rw [setitem, hr] at h
    exact Except.noConfusion h
  · simp only [setitem, hr] at h
    rcases hdt : spec.dtype with _ | dt
    · simp only [hdt] at h
      injection h with h
      exact ⟨value, h.symm, spec, hr, Or.inl hdt⟩
    · simp only [hdt] at h
      by_cases hok : (isNone value || isinstanceL value dt) = true
      · rw [if_pos hok] at h
        injection h with h
        refine ⟨value, h.symm, spec, hr, ?_⟩
        rcases Bool.or_eq_true_iff.mp hok with h1 | h1
        · exact Or.inr (Or.inl (isNone_iff.mp h1))
        · exact Or.inr (Or.inr ⟨dt, hdt, h1⟩)
      · rw [if_neg hok] at h
        rcases hc : spec.dtype_convert with _ | convert
        · simp only [hc] at h
          exact Except.noConfusion h
        · simp only [hc] at h
          by_cases hok2 : (isinstanceL (convert value) dt || isNone (convert value)) = true
          · rw [if_pos hok2] at h
            injection h with h
            refine ⟨convert value, ?_, spec, hr, ?_⟩
            · rw [← h, dictSet_dictSet]
            · rcases Bool.or_eq_true_iff.mp hok2 with h1 | h1
              · exact Or.inr (Or.inr ⟨dt, hdt, h1⟩)
              · exact Or.inr (Or.inl (isNone_iff.mp h1))
          · rw [if_neg hok2] at h
            exact Except.noConfusion h

theorem setitem_ok_self {reg : List (String × FieldSpec)} {d : Dict} {key : String}
    {value : PyVal} {d' : Dict} (h : setitem reg d key value = .ok d') :
    ∃ v', lookupD d' key = some v' ∧
      ∀ spec dt, lookupReg reg key = some spec → spec.dtype = some dt →
        (v' = PyVal.none ∨ isinstanceL v' dt = true) := by
  obtain ⟨v', rfl, spec, hspec, hcase⟩ := setitem_ok_shape h
  refine ⟨v', lookupD_dictSet_self _ _ _, ?_⟩
  intro spec' dt hr' hdt'
  rw [hspec] at hr'
  injection hr' with hr'
  subst hr'
  rcases hcase with h1 | h1 | ⟨dt0, hdt0, hinst⟩
  · rw [h1] at hdt'
    exact Option.noConfusion hdt'
  · exact Or.inl h1
  · rw [hdt0] at hdt'
    injection hdt' with hdt'
    subst hdt'
    exact Or.inr hinst

theorem setitem_ok_ne {reg : List (String × FieldSpec)} {d : Dict} {key : String}
    {value : PyVal} {d' : Dict} (h : setitem reg d key value = .ok d')
    {k' : String} (hne : key ≠ k') : lookupD d' k' = lookupD d k' := by
  obtain ⟨v', rfl, -⟩ := setitem_ok_shape h
  exact lookupD_dictSet_ne _ _ _ _ hne

/-- The type-contract invariant over a whole item: every stored value of
a field with a declared dtype is `None` or an instance of that dtype. -/
def typedDict (reg : List (String × FieldSpec)) (d : Dict) : Prop :=
  ∀ k v, lookupD d k = some v →
    ∀ spec dt, lookupReg reg k = some spec → spec.dtype = some dt →
      (v = PyVal.none ∨ isinstanceL v dt = true)

theorem setitem_typed {reg : List (String × FieldSpec)} {d : Dict} {key : String}
    {value : PyVal} {d' : Dict} (ht : typedDict reg d)
    (h : setitem reg d key value = .ok d') : typedDict reg d' := by
  intro k v hkv spec dt hr hdt
  by_cases hk : key = k
  · subst hk
    obtain ⟨v', hv', hprop⟩ := setitem_ok_self h
    rw [hv'] at hkv
    injection hkv with hvv
    subst hvv
    exact hprop spec dt hr hdt
  · rw [setitem_ok_ne h hk] at hkv
    exact ht k v hkv spec dt hr hdt

/-! ### Lemmas: `TypedItem.parse` -/

theorem parseGo_skip_missing {reg : List (String × FieldSpec)} {item : Dict} {key : String}
    (props : FieldSpec) (rest : List (String × FieldSpec)) (article : Dict)
    (h : lookupD item key = Option.none) :
    parseGo reg item ((key, props) :: rest) article = parseGo reg item rest article := by
  simp only [parseGo, h]

theorem parseGo_skip_empty {reg : List (String × FieldSpec)} {item : Dict} {key : String}
    {v : PyVal} (props : FieldSpec) (rest : List (String × FieldSpec)) (article : Dict)
    (h : lookupD item key = some v) (hv : isNoneOrEmptyStr v = true) :
    parseGo reg item ((key, props) :: rest) article = parseGo reg item rest article := by
  simp only [parseGo, h, hv, if_true]

theorem parseGo_fallback {reg : List (String × FieldSpec)} {item : Dict} {key : String}
    {v : PyVal} {props : FieldSpec} (rest : List (String × FieldSpec)) (article : Dict)
    (h : lookupD item key = some v) (hv : isNoneOrEmptyStr v = false)
    {k2 : String} {dts : List PyType} {ty : PyType}
    (herr : setitem reg article key v = .error (SetErr.valueError k2 dts ty)) :
    parseGo reg item ((key, props) :: rest) article =
      (setitem reg article key (props.parser v)).bind
        (fun a => parseGo reg item rest a) := by
  simp only [parseGo, h, hv, Bool.false_eq_true, if_false, herr]

theorem parseGo_typed {reg : List (String × FieldSpec)} {item : Dict} :
    ∀ {L : List (String × FieldSpec)} {article res : Dict},
      parseGo reg item L article = .ok res → typedDict reg article → typedDict reg res := by
  intro L
  induction L with
  | nil =>
    intro article res h ht
    rw [parseGo] at h
    injection h with h
    rw [← h]
    exact ht
  | cons p rest ih =>
    intro article res h ht
    obtain ⟨key, props⟩ := p
    rcases hl : lookupD item key with _ | v
    · rw [parseGo_skip_missing props rest article hl] at h
      exact ih h ht
    · by_cases hskip : isNoneOrEmptyStr v = true
      · rw [parseGo_skip_empty props rest article hl hskip] at h
        exact ih h ht
      · simp only [parseGo, hl, hskip, Bool.false_eq_true, if_false] at h
        rcases hs : setitem reg article key v with e | a
        · rw [hs] at h
          rcases e with f | ⟨f, dts, ty⟩ | _
          · exact Except.noConfusion h
          · rcases hs2 : setitem reg article key (props.parser v) with e2 | a2
            · rw [hs2] at h
              exact Except.noConfusion h
            · rw [hs2] at h
              exact ih h (setitem_typed ht hs2)
          · exact Except.noConfusion h
        · rw [hs] at h
          exact ih h (setitem_typed ht hs)

theorem parseGo_not_assigned {reg : List (String × FieldSpec)} {item : Dict} {key : String}
    (hskip : lookupD item key = Option.none ∨
      ∃ v0, lookupD item key = some v0 ∧ isNoneOrEmptyStr v0 = true) :
    ∀ {L : List (String × FieldSpec)} {article res : Dict},
      lookupD article key = Option.none →
      parseGo reg item L article = .ok res → lookupD res key = Option.none := by
  intro L
  induction L with
  | nil =>
    intro article res ha h
    rw [parseGo] at h
    injection h with h
    rw [← h]
    exact ha
  | cons p rest ih =>
    intro article res ha h
    obtain ⟨k, props⟩ := p
    rcases hl : lookupD item k with _ | v
    · rw [parseGo_skip_missing props rest article hl] at h
      exact ih ha h
    · by_cases hsk : isNoneOrEmptyStr v = true
      · rw [parseGo_skip_empty props rest article hl hsk] at h
        exact ih ha h
      · have hkk : k ≠ key := by
          intro he
          subst he
          rcases hskip with h0 | ⟨v0, hv0, he0⟩
          · rw [h0] at hl
            exact Option.noConfusion hl
          · rw [hv0] at hl
            injection hl with hl
            subst hl
            exact hsk he0
        simp only [parseGo, hl, hsk, Bool.false_eq_true, if_false] at h
        rcases hs : setitem reg article k v with e | a
        · rw [hs] at h
          rcases e with f | ⟨f, dts, ty⟩ | _
          · exact Except.noConfusion h
          · rcases hs2 : setitem reg article k (props.parser v) with e2 | a2
            · rw [hs2] at h
              exact Except.noConfusion h
            · rw [hs2] at h
              refine ih ?_ h
              rw [setitem_ok_ne hs2 hkk]
              exact ha
          · exact Except.noConfusion h
        · rw [hs] at h
          refine ih ?_ h
          rw [setitem_ok_ne hs hkk]
          exact ha

/-! ### Lemmas: `TypedItem.clean` -/

theorem constructFrom_shape {reg : List (String × FieldSpec)} :
    ∀ {entries : List (String × PyVal)} {d res : Dict},
      (∀ p ∈ entries, ∀ q ∈ d, q.1 ≠ p.1) →
      (entries.map Prod.fst).Nodup →
      constructFrom reg entries d = .ok res →
      res.map Prod.fst = d.map Prod.fst ++ entries.map Prod.fst ∧
        ∀ p ∈ res, p ∈ d ∨ okEntry reg p.1 p.2 := by
  intro entries
  induction entries with
  | nil =>
    intro d res _ _ h
    rw [constructFrom] at h
    injection h with h
    subst h
    exact ⟨by simp, fun p hp => Or.inl hp⟩
  | cons e rest ih =>
    intro d res hfresh hnd h
    obtain ⟨k, v⟩ := e
    rw [constructFrom] at h
    rcases hs : setitem reg d k v with e2 | a
    · rw [hs] at h
      exact Except.noConfusion h
    · rw [hs] at h
      obtain ⟨v', rfl, hok⟩ := setitem_ok_shape hs
      have hknotin : ∀ q ∈ d, q.1 ≠ k :=
        fun q hq => hfresh (k, v) (List.mem_cons_self _ _) q hq
      rw [dictSet_append hknotin] at h
      have hkrest : ∀ p ∈ rest, k ≠ p.1 := by
        intro p hp he
        have : k ∈ rest.map Prod.fst := by
          rw [he]
          exact List.mem_map_of_mem _ hp
        exact (List.nodup_cons.mp (by simpa using hnd)).1 this
      have hfresh' : ∀ p ∈ rest, ∀ q ∈ d ++ [(k, v')], q.1 ≠ p.1 := by
        intro p hp q hq
        rcases List.mem_append.mp hq with hq | hq
        · exact hfresh p (List.mem_cons_of_mem _ hp) q hq
        · rcases List.mem_singleton.mp hq with rfl
          exact hkrest p hp
      obtain ⟨hkeys, hvals⟩ := ih hfresh' (by simpa using (List.nodup_cons.mp (by simpa using hnd)).2) h
      constructor
      · rw [hkeys]
        simp
      · intro p hp
        rcases hvals p hp with hp2 | hp2
        · rcases List.mem_append.mp hp2 with hp3 | hp3
          · exact Or.inl hp3
          · rcases List.mem_singleton.mp hp3 with rfl
            exact Or.inr hok
        · exact Or.inr hp2

theorem constructFrom_fixed {reg : List (String × FieldSpec)} :
    ∀ {entries : List (String × PyVal)} {d : Dict},
      (∀ p ∈ entries, okEntry reg p.1 p.2 ∧ pyTruthy p.2 = true) →
      (∀ p ∈ entries, ∀ q ∈ d, q.1 ≠ p.1) →
      (entries.map Prod.fst).Nodup →
      constructFrom reg entries d = .ok (d ++ entries) := by
  intro entries
  induction entries with
  | nil =>
    intro d _ _ _
    rw [constructFrom]
    simp
  | cons e rest ih =>
    intro d hok hfresh hnd
    obtain ⟨k, v⟩ := e
    obtain ⟨⟨spec, hspec, hcases⟩, htr⟩ := hok (k, v) (List.mem_cons_self _ _)
    have hset : setitem reg d k v = .ok (dictSet d k v) := by
      rcases hcases with hc | hc | ⟨dt, hdt, hinst⟩
      · simp only [setitem, hspec, hc]
      · rw [hc] at htr
        exact absurd htr (by simp [pyTruthy])
      · simp only [setitem, hspec, hdt, hinst, Bool.or_true, if_true]
    have hknotin : ∀ q ∈ d, q.1 ≠ k :=
      fun q hq => hfresh (k, v) (List.mem_cons_self _ _) q hq
    have hkrest : ∀ p ∈ rest, k ≠ p.1 := by
      intro p hp he
      have : k ∈ rest.map Prod.fst := by
        rw [he]
        exact List.mem_map_of_mem _ hp
      exact (List.nodup_cons.mp (by simpa using hnd)).1 this
    have hfresh' : ∀ p ∈ rest, ∀ q ∈ d ++ [(k, v)], q.1 ≠ p.1 := by
      intro p hp q hq
      rcases List.mem_append.mp hq with hq | hq
      · exact hfresh p (List.mem_cons_of_mem _ hp) q hq
      · rcases List.mem_singleton.mp hq with rfl
        exact hkrest p hp
    rw [constructFrom, hset, dictSet_append hknotin]
    have := ih (fun p hp => hok p (List.mem_cons_of_mem _ hp)) hfresh'
      (by simpa using (List.nodup_cons.mp (by simpa using hnd)).2)
    rw [Except.bind] at *
    show constructFrom reg rest (d ++ [(k, v)]) = _
    rw [this]
    simp

/-! ### Claim theorems -/

/-- Claim C1: for every `TypedItem` field with a declared dtype, after any
successful assignment via `__setitem__` the stored value is an instance of
the field's declared semantic type or is `None`. -/
theorem c1_type_contract (reg : List (String × FieldSpec)) (d : Dict) (key : String)
    (value : PyVal) (d' : Dict) (spec : FieldSpec) (dt : List PyType)
    (hreg : lookupReg reg key = some spec) (hdt : spec.dtype = some dt)
    (h : setitem reg d key value = .ok d') :
    ∃ v', lookupD d' key = some v' ∧ (v' = PyVal.none ∨ isinstanceL v' dt = true) := by
  obtain ⟨v', hv', hprop⟩ := setitem_ok_self h
  exact ⟨v', hv', hprop spec dt hreg hdt⟩

/-- Witness for C1: assigning the string "7" to the `year` field of a
`GameItem` converts and stores the integer 7, an instance of `int`. -/
theorem c1_type_contract_witness :
    ∃ v', lookupD [("year", PyVal.int 7)] "year" = some v' ∧
      (v' = PyVal.none ∨ isinstanceL v' [PyType.int] = true) :=
  c1_type_contract gameFields [] "year" (PyVal.str "7") [("year", PyVal.int 7)]
    yearSpec [PyType.int] rfl rfl rfl

/-- Claim C2: a stored value that mismatches the declared dtype fails with
a `ValueError` naming the field, the expected type and the actual type when
no converter is declared; with a declared converter, the converter output
is re-checked and stored, and only a persisting mismatch fails (with the
`AssertionError` of the `assert` on line 61). -/
theorem c2_assign_failure (reg : List (String × FieldSpec)) (d : Dict) (key : String)
    (value : PyVal) (spec : FieldSpec) (dt : List PyType)
    (hreg : lookupReg reg key = some spec) (hdt : spec.dtype = some dt)
    (hnn : isNone value = false) (hmis : isinstanceL value dt = false) :
    (spec.dtype_convert = Option.none →
      setitem reg d key value = .error (SetErr.valueError key dt (typeOf value))) ∧
    (∀ convert, spec.dtype_convert = some convert →
      ((isinstanceL (convert value) dt || isNone (convert value)) = true →
        setitem reg d key value = .ok (dictSet (dictSet d key value) key (convert value))) ∧
      ((isinstanceL (convert value) dt || isNone (convert value)) = false →
        setitem reg d key value = .error SetErr.assertError)) := by
  have hcond : (isNone value || isinstanceL value dt) = false := by
    rw [hnn, hmis]
    rfl
  refine ⟨?_, ?_⟩
  · intro hc
    simp only [setitem, hreg, hdt, hcond, Bool.false_eq_true, if_false, hc]
  · intro convert hc
    refine ⟨?_, ?_⟩
    · intro hok
      simp only [setitem, hreg, hdt, hcond, Bool.false_eq_true, if_false, hc, hok, if_true]
    · intro hbad
      simp only [setitem, hreg, hdt, hcond, Bool.false_eq_true, if_false, hc, hbad]

/-- Witness for C2: the `year` field declares `parse_int` as converter, so
assigning the string "7" converts it and stores the integer 7. -/
theorem c2_assign_failure_witness :
    setitem gameFields [] "year" (PyVal.str "7") =
      .ok (dictSet (dictSet [] "year" (PyVal.str "7")) "year"
        (parse_int (PyVal.str "7"))) :=
  ((c2_assign_failure gameFields [] "year" (PyVal.str "7") yearSpec [PyType.int]
      rfl rfl rfl rfl).2 parse_int rfl).1 rfl

/-- Claim C3: `TypedItem.parse` skips fields whose raw value is missing,
`None`, or the empty string (and such a field is absent from the result);
on a `ValueError` for a field it falls back to the field's declared parser
and retries the assignment exactly once; a successfully parsed record is
fully typed. -/
theorem c3_parse_loose (reg : List (String × FieldSpec)) (item : Dict) (key : String)
    (props : FieldSpec) (rest : List (String × FieldSpec)) (article : Dict) (v : PyVal) :
    (lookupD item key = Option.none →
      parseGo reg item ((key, props) :: rest) article = parseGo reg item rest article) ∧
    (lookupD item key = some v → isNoneOrEmptyStr v = true →
      parseGo reg item ((key, props) :: rest) article = parseGo reg item rest article) ∧
    (lookupD item key = some v → isNoneOrEmptyStr v = false →
      ∀ (k2 : String) (dts : List PyType) (ty : PyType),
        setitem reg article key v = .error (SetErr.valueError k2 dts ty) →
        parseGo reg item ((key, props) :: rest) article =
          (setitem reg article key (props.parser v)).bind
            (fun a => parseGo reg item rest a)) ∧
    (∀ res, parse reg item = .ok res → typedDict reg res) ∧
    ((lookupD item key = Option.none ∨
        ∃ v0, lookupD item key = some v0 ∧ isNoneOrEmptyStr v0 = true) →
      ∀ res, parse reg item = .ok res → lookupD res key = Option.none) := by
  refine ⟨?_, ?_, ?_, ?_, ?_⟩
  · intro h
    exact parseGo_skip_missing props rest article h
  · intro h hv
    exact parseGo_skip_empty props rest article h hv
  · intro h hv k2 dts ty herr
    exact parseGo_fallback rest article h hv herr
  · intro res h
    exact parseGo_typed h (fun k v hkv => Option.noConfusion hkv)
  · intro hsk res h
    exact @parseGo_not_assigned reg item key hsk reg [] res rfl h

/-- Witness for C3: the `cooperative` field's type error on the raw string
"yes" falls back to its declared parser `parse_bool`. -/
theorem c3_parse_loose_witness :
    parseGo gameFields [("cooperative", PyVal.str "yes")] [("cooperative", boolField)] [] =
      (setitem gameFields [] "cooperative" (boolField.parser (PyVal.str "yes"))).bind
        (fun a => parseGo gameFields [("cooperative", PyVal.str "yes")] [] a) :=
  (c3_parse_loose gameFields [("cooperative", PyVal.str "yes")] "cooperative" boolField
      [] [] (PyVal.str "yes")).2.2.1 rfl rfl "cooperative" [PyType.bool] PyType.str rfl

/-- Counterexample to claim C6 as stated: 0 is the declared lower bound of
`POS_FLOAT_PROCESSOR` (`validate_range(lower=0)` accepts it), yet the
processor normalizes the boundary candidate 0 to "no value" because of its
final `lambda v: v or None` stage. -/
theorem c6_counterexample :
    POS_FLOAT_PROCESSOR [PyVal.int 0] = [] ∧
    validate_range (some 0) Option.none (PyVal.float 0) = PyVal.float 0 :=
  ⟨rfl, rfl⟩

/-- Claim C6 (amended): out-of-range candidates normalize to "no value"
and boundary values are accepted for the integer and non-negative-float
processors and for the `year` field's bounds, but `POS_FLOAT_PROCESSOR`
maps its lower boundary 0 (like any zero value) to "no value" through its
final truthiness stage. -/
theorem c6_range_enforcement (v todayYear : Int) :
    (v < 1 → POS_INT_PROCESSOR [PyVal.int v] = []) ∧
    (1 ≤ v → POS_INT_PROCESSOR [PyVal.int v] = [PyVal.int v]) ∧
    (v < 0 → NN_INT_PROCESSOR [PyVal.int v] = []) ∧
    (0 ≤ v → NN_INT_PROCESSOR [PyVal.int v] = [PyVal.int v]) ∧
    (v < 0 → NN_FLOAT_PROCESSOR [PyVal.int v] = []) ∧
    (0 ≤ v → NN_FLOAT_PROCESSOR [PyVal.int v] = [PyVal.float (v : ℚ)]) ∧
    (v < 0 → POS_FLOAT_PROCESSOR [PyVal.int v] = []) ∧
    (0 < v → POS_FLOAT_PROCESSOR [PyVal.int v] = [PyVal.float (v : ℚ)]) ∧
    POS_FLOAT_PROCESSOR [PyVal.int 0] = [] ∧
    ((v < -4000 ∨ todayYear + 10 < v) →
      year_input_processor todayYear [PyVal.int v] = []) ∧
    (0 ≤ todayYear →
      year_input_processor todayYear [PyVal.int (-4000)] = [PyVal.int (-4000)] ∧
      year_input_processor todayYear [PyVal.int (todayYear + 10)] =
        [PyVal.int (todayYear + 10)]) := by
  refine ⟨?_, ?_, ?_, ?_, ?_, ?_, ?_, ?_, rfl, ?_, ?_⟩
  · intro h
    rw [POS_INT_PROCESSOR_int, if_neg (by omega)]
  · intro h
    rw [POS_INT_PROCESSOR_int, if_pos h]
  · intro h
    rw [NN_INT_PROCESSOR_int, if_neg (by omega)]
  · intro h
    rw [NN_INT_PROCESSOR_int, if_pos h]
  · intro h
    rw [NN_FLOAT_PROCESSOR_int, if_neg (by omega)]
  · intro h
    rw [NN_FLOAT_PROCESSOR_int, if_pos h]
  · intro h
    rw [POS_FLOAT_PROCESSOR_int, if_neg (by omega)]
  · intro h
    rw [POS_FLOAT_PROCESSOR_int, if_pos h]
  · intro h
    rw [year_input_processor_int, if_neg (by omega)]
  · intro h
    refine ⟨?_, ?_⟩
    · rw [year_input_processor_int, if_pos (by omega)]
    · rw [year_input_processor_int, if_pos (by omega)]

/-- Witness for C6: concrete in- and out-of-range candidates for the
positive-integer and `year` processors. -/
theorem c6_range_enforcement_witness :
    POS_INT_PROCESSOR [PyVal.int 0] = [] ∧
    POS_INT_PROCESSOR [PyVal.int 1] = [PyVal.int 1] ∧
    year_input_processor 2026 [PyVal.int 2037] = [] ∧
    year_input_processor 2026 [PyVal.int (-4000)] = [PyVal.int (-4000)] :=
  ⟨(c6_range_enforcement 0 2026).1 (by omega),
   (c6_range_enforcement 1 2026).2.1 (by omega),
   (c6_range_enforcement 2037 2026).2.2.2.2.2.2.2.2.2.1 (Or.inr (by omega)),
   ((c6_range_enforcement 0 2026).2.2.2.2.2.2.2.2.2.2 (by omega)).1⟩

/-- Counterexample to claim C7 as stated: `clean` is not idempotent.  The
raw string "0" is truthy and kept, but the `year` field's converter stores
the falsy integer 0, which a second `clean` then filters out. -/
theorem c7_counterexample :
    clean gameFields [("year", PyVal.str "0")] = .ok [("year", PyVal.int 0)] ∧
    clean gameFields [("year", PyVal.int 0)] = .ok [] ∧
    (Except.ok ([("year", PyVal.int 0)] : Dict) ≠
      (Except.ok ([] : Dict) : Except SetErr Dict)) := by
  refine ⟨rfl, rfl, ?_⟩
  intro h
  injection h with h
  exact List.noConfusion h

/-- Claim C7 (amended): `clean` is idempotent on every input whose cleaned
record carries only truthy values: if `clean(x)` succeeds and every stored
value of the result is truthy, then `clean(clean(x)) = clean(x)`.  (The
declared dtype converters can map a truthy raw value to a falsy stored
value, which a second `clean` drops — see the counterexample.) -/
theorem c7_clean_idempotent (x r : Dict) (hx : (x.map Prod.fst).Nodup)
    (h : clean gameFields x = .ok r) (htr : ∀ p ∈ r, pyTruthy p.2 = true) :
    clean gameFields r = .ok r := by
  have hfilter_nodup :
      ((x.filter (fun p => pyTruthy p.2 && (lookupReg gameFields p.1).isSome)).map
        Prod.fst).Nodup :=
    List.Nodup.sublist (List.Sublist.map Prod.fst (List.filter_sublist x)) hx
  obtain ⟨hkeys, hvals⟩ := constructFrom_shape
    (fun p _ q hq => absurd hq (List.not_mem_nil q)) hfilter_nodup h
  have hok : ∀ p ∈ r, okEntry gameFields p.1 p.2 := by
    intro p hp
    rcases hvals p hp with hp2 | hp2
    · exact absurd hp2 (List.not_mem_nil p)
    · exact hp2
  have hkeys' : r.map Prod.fst =
      (x.filter (fun p => pyTruthy p.2 && (lookupReg gameFields p.1).isSome)).map
        Prod.fst := by
    simpa using hkeys
  have hfix : r.filter (fun p => pyTruthy p.2 && (lookupReg gameFields p.1).isSome) = r := by
    apply List.filter_eq_self.mpr
    intro p hp
    obtain ⟨spec, hspec, -⟩ := hok p hp
    rw [htr p hp, hspec]
    rfl
  rw [clean, hfix]
  have hfixed : constructFrom gameFields r [] = .ok ([] ++ r) :=
    constructFrom_fixed (fun p hp => ⟨hok p hp, htr p hp⟩)
      (fun p _ q hq => absurd hq (List.not_mem_nil q))
      (by rw [hkeys']; exact hfilter_nodup)
  simpa using hfixed

/-- Witness for C7: a cleaned record with one truthy string field is a
fixed point of `clean`. -/
theorem c7_clean_idempotent_witness :
    clean gameFields [("name", PyVal.str "Agricola")] =
      .ok [("name", PyVal.str "Agricola")] :=
  c7_clean_idempotent [("name", PyVal.str "Agricola")] [("name", PyVal.str "Agricola")]
    (by simp) rfl (by decide)

/-- The chain requests exactly the queued urls, in queue order. -/
theorem chainTrace_urls (world : String → Response) :
    ∀ (reqs : List (String × Stage)) (it : ChainItem),
      chainTrace world it reqs = reqs.map Prod.fst := by
  intro reqs
  induction reqs with
  | nil => intro it; rfl
  | cons p rest ih =>
    intro it
    obtain ⟨u, s⟩ := p
    rw [chainTrace, ih]
    rfl

/-- Claim C4: with an empty queue `_next_request_or_item` returns the item
itself as the finished entity; with a non-empty queue it removes exactly
the head `(url, callback)` pair and returns a request to that url whose
callback is bound with the current item and the remaining queue; running a
chain requests the queued urls strictly in order, one at a time. -/
theorem c4_chain_advance :
    (∀ it : ChainItem, next_request_or_item it [] = NextResult.item it) ∧
    (∀ (it : ChainItem) (url : String) (s : Stage) (rest : List (String × Stage)),
      next_request_or_item it ((url, s) :: rest) = NextResult.request url s it rest) ∧
    (∀ (world : String → Response) (it : ChainItem) (reqs : List (String × Stage)),
      chainTrace world it reqs = reqs.map Prod.fst) :=
  ⟨fun _ => rfl, fun _ _ _ _ => rfl, fun world it reqs => chainTrace_urls world reqs it⟩

/-- Claim C5: a 3-stage queue whose second request fails still runs that
stage's callback on the error delivery, which extracts no candidates
(`_json_from_response` yields the empty document), and the chain finishes
with exactly one record carrying the fields contributed by stages 1 and 3
but nothing from stage 2. -/
theorem c5_partial_failure (d1 d3 : JDoc) (u1 u2 u3 : String) (world : String → Response)
    (h1 : world u1 = Response.ok d1) (h2 : world u2 = Response.err)
    (h3 : world u3 = Response.ok d3) :
    json_from_response Response.err = [] ∧
    runChain world ⟨[], [], []⟩ [(u1, Stage.images), (u2, Stage.videos), (u3, Stage.reviews)] =
      ⟨clear_list (jmesFlat d1 "images" "url" ++ jmesFlat d1 "images" "thumb"),
        [], clear_list (jmesFlat d3 "reviews" "url")⟩ := by
  refine ⟨rfl, ?_⟩
  rw [runChain, h1, runChain, h2, runChain, h3, runChain]
  simp [applyStage, json_from_response]
  rfl

/-- Witness for C5: a concrete world erring on the second url. -/
theorem c5_partial_failure_witness :
    json_from_response Response.err = [] ∧
    runChain
      (fun u => if u = "u2" then Response.err
        else if u = "u1" then Response.ok [("images", [[("url", "i1")]])]
        else Response.ok [("reviews", [[("url", "r1")]])])
      ⟨[], [], []⟩ [("u1", Stage.images), ("u2", Stage.videos), ("u3", Stage.reviews)] =
      ⟨clear_list (jmesFlat [("images", [[("url", "i1")]])] "images" "url" ++
          jmesFlat [("images", [[("url", "i1")]])] "images" "thumb"),
        [], clear_list (jmesFlat [("reviews", [[("url", "r1")]])] "reviews" "url")⟩ :=
  c5_partial_failure [("images", [[("url", "i1")]])] [("reviews", [[("url", "r1")]])]
    "u1" "u2" "u3" _ rfl rfl rfl

/-- Claim C8: parsing the token "yes" for a boolean field yields `True`,
which `_serialize_bool` emits as 1 (and `False` as 0); an unrecognized
token such as "maybe" parses to "no value", so the field keeps its default
null value, which the serializer emits as absent (`None`). -/
theorem c8_bool_round_trip :
    parse_bool (PyVal.str "yes") = PyVal.bool true ∧
    serialize_bool (PyVal.bool true) = PyVal.int 1 ∧
    serialize_bool (PyVal.bool false) = PyVal.int 0 ∧
    parse_bool (PyVal.str "maybe") = PyVal.none ∧
    serialize_bool PyVal.none = PyVal.none ∧
    lookupReg gameFields "cooperative" = some boolField ∧
    boolField.parser = parse_bool ∧
    boolField.serializer = some serialize_bool ∧
    parse gameFields [("cooperative", PyVal.str "maybe")] =
      .ok [("cooperative", PyVal.none)] :=
  ⟨rfl, rfl, rfl, rfl, rfl, rfl, rfl, rfl, rfl⟩

/-- Claim C9: `_serialize_bool` maps every non-`bool` input — including
the integers 0 and 1, its own outputs — to `None` (absent), so serializing
an already-serialized boolean loses it: the serializer is not idempotent. -/
theorem c9_serialize_bool_not_idempotent :
    (∀ v : PyVal, isinstance v PyType.bool = false → serialize_bool v = PyVal.none) ∧
    serialize_bool (PyVal.int 0) = PyVal.none ∧
    serialize_bool (PyVal.int 1) = PyVal.none ∧
    serialize_bool (serialize_bool (PyVal.bool true)) = PyVal.none ∧
    serialize_bool (PyVal.bool true) = PyVal.int 1 ∧
    serialize_bool (serialize_bool (PyVal.bool true)) ≠ serialize_bool (PyVal.bool true) := by
  refine ⟨?_, rfl, rfl, rfl, rfl, ?_⟩
  · intro v hv
    cases v <;> first
      | rfl
      | exact absurd hv (by simp [isinstance])
  · intro h
    exact PyVal.noConfusion h

/-- Witness for C9: the serializer's own outputs 0 and 1 are not booleans
and serialize to `None`. -/
theorem c9_serialize_bool_witness :
    serialize_bool (PyVal.int 1) = PyVal.none ∧ serialize_bool (PyVal.str "1") = PyVal.none :=
  ⟨c9_serialize_bool_not_idempotent.1 (PyVal.int 1) rfl,
   c9_serialize_bool_not_idempotent.1 (PyVal.str "1") rfl⟩

/-- Claim C10: in `LudingSpider.parse_game`, a players cell without a `-`
separator feeds the whole cell text to both `min_players` and
`max_players`; an absent cell feeds `None` to both, adding no candidate,
so both fields remain unset. -/
theorem c10_players_cell (s : String) :
    (s ≠ "" → (∀ c ∈ s.data, c ≠ '-') →
      minPlayersFed (some s) = some s ∧ maxPlayersFed (some s) = some s) ∧
    (minPlayersFed Option.none = Option.none ∧ maxPlayersFed Option.none = Option.none ∧
      addValue [] Option.none = []) := by
  refine ⟨?_, rfl, rfl, rfl⟩
  intro hne hnod
  have hsplit : splitOnChar (fun c => decide (c = '-')) s.data = [s.data] :=
    splitOnChar_id (fun c hc => by simp [hnod c hc])
  constructor
  · rw [minPlayersFed, playersList, if_neg hne, hsplit]
    rfl
  · rw [maxPlayersFed, playersList, if_neg hne, hsplit]
    rfl

/-- Witness for C10: the dash-free cell text "4" is fed whole to both
player fields. -/
theorem c10_players_cell_witness :
    minPlayersFed (some "4") = some "4" ∧ maxPlayersFed (some "4") = some "4" :=
  (c10_players_cell "4").1 (by decide) (by decide)

end Ludoj
